import Mathlib

/-
Verification development for the guess-the-song repository.

The definitions below are shallow embeddings of the round-lifecycle
controller and scoring logic in frontend/src/pages/JoinRoom.tsx
(the InGamePage component) and of the playback session manager in
frontend/src/services/songServices.ts.

Conventions of the embedding:
- React useState setters are modelled as immediate field updates on an
  explicit state record (stateful code becomes explicit state passing).
- JavaScript numbers holding millisecond timestamps are modelled as
  integers; seconds values obtained by dividing by 1000 are rationals.
- Socket emissions are recorded in an `emitted` ghost list; audio-element
  side effects are recorded on explicit audio-state records.
-/

set_option maxHeartbeats 1000000

/- ------------------------------------------------------------------ -/
/- ScoringEngine: calculatePoints (JoinRoom.tsx lines 565-578)         -/
/- ------------------------------------------------------------------ -/

/-- Elapsed seconds between a recorded round start and now, both in
milliseconds, as written in the source: (Date.now() - roundStartTime) / 1000. -/
def elapsedSecs (start now : ℤ) : ℚ := ((now - start : ℤ) : ℚ) / 1000

/-- Embedding of calculatePoints from JoinRoom.tsx.  The source reads:
if (!roundStartTime) return 500; then
timeRatio = Math.max(0, (roundTimeAsNumber - elapsedTime) / roundTimeAsNumber);
points = Math.floor(minPoints + (maxPoints - minPoints) * timeRatio);
return Math.max(points, minPoints); with maxPoints = 1000, minPoints = 100.
The unrecorded round start (null in the source) is modelled as `none`. -/
def calculatePoints (roundStartTime : Option ℤ) (now : ℤ)
    (roundTimeAsNumber : ℕ) : ℤ :=
  match roundStartTime with
  | none => 500
  | some start =>
    let maxPoints : ℚ := 1000
    let minPoints : ℚ := 100
    let elapsedTime : ℚ := elapsedSecs start now
    let timeRatio : ℚ :=
      max 0 (((roundTimeAsNumber : ℚ) - elapsedTime) / (roundTimeAsNumber : ℚ))
    let points : ℤ := ⌊minPoints + (maxPoints - minPoints) * timeRatio⌋
    max points 100

/-- The value of calculatePoints as a function of the elapsed seconds alone. -/
def pointsAt (D : ℕ) (e : ℚ) : ℤ :=
  max ⌊(100 : ℚ) + 900 * max 0 (((D : ℚ) - e) / (D : ℚ))⌋ 100

lemma calculatePoints_some (start now : ℤ) (D : ℕ) :
    calculatePoints (some start) now D = pointsAt D (elapsedSecs start now) := by
  simp only [calculatePoints, pointsAt]
  norm_num

lemma pointsAt_antitone {D : ℕ} (hD : 0 < D) {e₁ e₂ : ℚ} (h : e₁ ≤ e₂) :
    pointsAt D e₂ ≤ pointsAt D e₁ := by
  have hDq : (0 : ℚ) < (D : ℚ) := by exact_mod_cast hD
  apply max_le_max _ le_rfl
  apply Int.floor_le_floor
  have hdiv : ((D : ℚ) - e₂) / (D : ℚ) ≤ ((D : ℚ) - e₁) / (D : ℚ) := by
    gcongr
  have hmax : max 0 (((D : ℚ) - e₂) / (D : ℚ)) ≤ max 0 (((D : ℚ) - e₁) / (D : ℚ)) :=
    max_le_max le_rfl hdiv
  nlinarith [hmax]

lemma pointsAt_ge_100 (D : ℕ) (e : ℚ) : 100 ≤ pointsAt D e :=
  le_max_right _ _

lemma pointsAt_le_1000 {D : ℕ} (hD : 0 < D) {e : ℚ} (he : 0 ≤ e) :
    pointsAt D e ≤ 1000 := by
  have hDq : (0 : ℚ) < (D : ℚ) := by exact_mod_cast hD
  have hratio : max 0 (((D : ℚ) - e) / (D : ℚ)) ≤ 1 := by
    apply max_le (by norm_num)
    rw [div_le_one hDq]
    linarith
  have hfloor : ⌊(100 : ℚ) + 900 * max 0 (((D : ℚ) - e) / (D : ℚ))⌋ ≤ 1000 := by
    have : (100 : ℚ) + 900 * max 0 (((D : ℚ) - e) / (D : ℚ)) ≤ 1000 := by nlinarith
    calc ⌊(100 : ℚ) + 900 * max 0 (((D : ℚ) - e) / (D : ℚ))⌋
        ≤ ⌊(1000 : ℚ)⌋ := Int.floor_le_floor this
      _ = 1000 := by norm_num
  exact max_le hfloor (by norm_num)

lemma pointsAt_zero {D : ℕ} (hD : 0 < D) : pointsAt D 0 = 1000 := by
  have hDq : ((D : ℚ)) ≠ 0 := by
    exact_mod_cast Nat.pos_iff_ne_zero.mp hD
  simp only [pointsAt, sub_zero, div_self hDq]
  norm_num

lemma pointsAt_full (D : ℕ) : pointsAt D ((D : ℚ)) = 100 := by
  simp only [pointsAt, sub_self, zero_div]
  norm_num

lemma pointsAt_no_clamp {D : ℕ} (hD : 0 < D) {e : ℚ} (he₂ : e ≤ (D : ℚ)) :
    pointsAt D e = max ⌊(100 : ℚ) + 900 * (((D : ℚ) - e) / (D : ℚ))⌋ 100 := by
  have hDq : (0 : ℚ) < (D : ℚ) := by exact_mod_cast hD
  have : max 0 (((D : ℚ) - e) / (D : ℚ)) = ((D : ℚ) - e) / (D : ℚ) := by
    apply max_eq_right
    apply div_nonneg _ (le_of_lt hDq)
    linarith
  rw [pointsAt, this]

/-- Claim C1: with a recorded round start and elapsed seconds e with
0 ≤ e ≤ roundDurationSec (positive), calculatePoints equals
floor(100 + 900 * (D - e) / D) clamped below at 100; it is non-increasing
in e, bounded in [100, 1000], equal to 1000 at e = 0 and 100 at e = D;
with no recorded round start it returns exactly 500. -/
theorem c1_calculatePoints_correct :
    (∀ (now : ℤ) (D : ℕ), calculatePoints none now D = 500) ∧
    (∀ (start now : ℤ) (D : ℕ), 0 < D →
      0 ≤ elapsedSecs start now → elapsedSecs start now ≤ (D : ℚ) →
      calculatePoints (some start) now D =
        max ⌊(100 : ℚ) + 900 * (((D : ℚ) - elapsedSecs start now) / (D : ℚ))⌋ 100 ∧
      100 ≤ calculatePoints (some start) now D ∧
      calculatePoints (some start) now D ≤ 1000) ∧
    (∀ (start now₁ now₂ : ℤ) (D : ℕ), 0 < D →
      elapsedSecs start now₁ ≤ elapsedSecs start now₂ →
      calculatePoints (some start) now₂ D ≤ calculatePoints (some start) now₁ D) ∧
    (∀ (start now : ℤ) (D : ℕ), 0 < D → elapsedSecs start now = 0 →
      calculatePoints (some start) now D = 1000) ∧
    (∀ (start now : ℤ) (D : ℕ), 0 < D → elapsedSecs start now = (D : ℚ) →
      calculatePoints (some start) now D = 100) := by
  refine ⟨fun now D => rfl, ?_, ?_, ?_, ?_⟩
  · intro start now D hD he₁ he₂
    rw [calculatePoints_some]
    exact ⟨pointsAt_no_clamp hD he₂, pointsAt_ge_100 _ _, pointsAt_le_1000 hD he₁⟩
  · intro start now₁ now₂ D hD h
    rw [calculatePoints_some, calculatePoints_some]
    exact pointsAt_antitone hD h
  · intro start now D hD he
    rw [calculatePoints_some, he]
    exact pointsAt_zero hD
  · intro start now D hD he
    rw [calculatePoints_some, he]
    exact pointsAt_full D

/-- Witness for C1 at the spec scenario: D = 20 s, answer at elapsed 5 s
gives 775 points; elapsed 0 gives 1000; elapsed 20 gives 100. -/
theorem c1_calculatePoints_correct_witness :
    (0 < 20 ∧ (0 : ℚ) ≤ elapsedSecs 0 5000 ∧ elapsedSecs 0 5000 ≤ (20 : ℚ)) ∧
    calculatePoints (some 0) 5000 20 =
      max ⌊(100 : ℚ) + 900 * (((20 : ℚ) - elapsedSecs 0 5000) / (20 : ℚ))⌋ 100 ∧
    calculatePoints (some 0) 5000 20 = 775 ∧
    calculatePoints (some 0) 0 20 = 1000 ∧
    calculatePoints (some 0) 20000 20 = 100 ∧
    calculatePoints none 5000 20 = 500 := by
  have h₁ : (0 : ℚ) ≤ elapsedSecs 0 5000 := by norm_num [elapsedSecs]
  have h₂ : elapsedSecs 0 5000 ≤ (20 : ℚ) := by norm_num [elapsedSecs]
  have hmain := c1_calculatePoints_correct.2.1 0 5000 20 (by norm_num) h₁ h₂
  have h1000 := c1_calculatePoints_correct.2.2.2.1 0 0 20 (by norm_num)
    (by norm_num [elapsedSecs])
  have h100 := c1_calculatePoints_correct.2.2.2.2 0 20000 20 (by norm_num)
    (by norm_num [elapsedSecs])
  refine ⟨⟨by norm_num, h₁, h₂⟩, hmain.1, ?_, h1000, h100,
    c1_calculatePoints_correct.1 5000 20⟩
  rw [hmain.1]
  norm_num [elapsedSecs]

/- ------------------------------------------------------------------ -/
/- RoundLifecycleController data model (JoinRoom.tsx, InGamePage)      -/
/- ------------------------------------------------------------------ -/

/-- Player aggregate (JoinRoom.tsx interface Player). -/
structure Player where
  name : String
  points : ℤ
  previousPoints : ℤ
  correctAnswers : ℤ
deriving DecidableEq, Repr

/-- Game modes of InGamePage (the three Quick Guess menu variants map to
one mode plus a snippet duration). -/
inductive GameMode
  | singleSong
  | mixedSongs
  | guessArtist
  | quickGuess
deriving DecidableEq, Repr

/-- Room configuration received in room-info; only the fields the
embedded handlers read are kept (guessTimeSec, snippetDurationSec). -/
structure RoomConfig where
  guessTimeSec : ℕ
  snippetDurationSec : Option ℕ
deriving DecidableEq, Repr

/-- Outbound socket events recorded by the handlers. -/
inductive OutEvent
  | updateScore (playerName : String) (points : ℤ) (correctAnswers : ℤ)
  | roundEnd
  | hostContinueRound (nextRound : ℕ) (totalRounds : ℕ)
  | hostEndGame
deriving DecidableEq, Repr

/-- State of the InGamePage controller.  Mount-time props (playerName,
isHost, isSinglePlayer, gameMode, totalRounds, roundTimeSec) are carried
as fields that no handler mutates; React useState hooks become the
remaining fields; roundTimeSec is getTimeAsNumber(roundTime).  The
audioPlaying flag abstracts whether songService has live audio
(songService.stopSong() sets it to false), `emitted` logs socket.emit
calls, and `ended` records navigation to the end-game page. -/
structure GameState where
  playerName : String
  isHost : Bool
  isSinglePlayer : Bool
  gameMode : GameMode
  totalRounds : ℕ
  roundTimeSec : ℕ
  roomConfig : Option RoomConfig
  players : List Player
  player : Player
  currentRound : ℕ
  timeLeft : ℤ
  roundStartTime : Option ℤ
  isRoundActive : Bool
  isIntermission : Bool
  selectedIndex : Option ℕ
  hasGuessedCorrectly : Bool
  hasSelectedCorrectly : Bool
  hasGuessedArtistCorrectly : Bool
  showCorrectAnswer : Bool
  isTimeUp : Bool
  hasPlayedSnippet : Bool
  isRoundStarting : Bool
  options : List String
  correctAnswer : String
  audioPlaying : Bool
  emitted : List OutEvent
  ended : Bool
deriving DecidableEq, Repr

/-- Embedding of addPointsToPlayer (JoinRoom.tsx lines 581-618):
computes newPoints and newCorrectAnswers from the current player,
updates the player, updates the matching roster entry, and emits
update-score with the new totals. -/
def addPointsToPlayer (points : ℤ) (correct : Bool) (s : GameState) : GameState :=
  let newPoints := s.player.points + points
  let newCorrectAnswers :=
    if correct then s.player.correctAnswers + 1 else s.player.correctAnswers
  { s with
    player := { s.player with points := newPoints,
                              correctAnswers := newCorrectAnswers }
    players := s.players.map (fun p =>
      if p.name = s.playerName then
        { p with points := newPoints, correctAnswers := newCorrectAnswers }
      else p)
    emitted := s.emitted ++
      [OutEvent.updateScore s.playerName newPoints newCorrectAnswers] }

/-- Embedding of handleSelect (JoinRoom.tsx lines 623-647).  Returns
immediately when selectedIndex is already set; otherwise locks the
selection, scores a correct choice, reveals the answer, stops audio and
enters Intermission.  `now` is Date.now() at the call. -/
def handleSelect (now : ℤ) (index : ℕ) (s : GameState) : GameState :=
  if s.selectedIndex ≠ none then s
  else
    let s₁ := { s with selectedIndex := some index }
    let chosenCorrect : Bool :=
      match s₁.options.get? index with
      | some t => t == s₁.correctAnswer
      | none => false
    if chosenCorrect then
      let points := calculatePoints s₁.roundStartTime now s₁.roundTimeSec
      let s₂ := addPointsToPlayer points true s₁
      { s₂ with hasSelectedCorrectly := true, showCorrectAnswer := true,
                audioPlaying := false, isRoundActive := false,
                isIntermission := true }
    else
      { s₁ with hasSelectedCorrectly := false, showCorrectAnswer := true,
                isTimeUp := false, audioPlaying := false,
                isRoundActive := false, isIntermission := true }

/-- Embedding of handleCorrectGuess (JoinRoom.tsx lines 660-683).
alreadyGuessed comes from the mode-specific flag; when not yet guessed it
scores, sets the mode flag, stops audio and enters Intermission. -/
def handleCorrectGuess (now : ℤ) (s : GameState) : GameState :=
  let alreadyGuessed :=
    match s.gameMode with
    | GameMode.singleSong => s.hasGuessedCorrectly
    | GameMode.guessArtist => s.hasGuessedArtistCorrectly
    | _ => false
  if alreadyGuessed then s
  else
    let points := calculatePoints s.roundStartTime now s.roundTimeSec
    let s₁ := addPointsToPlayer points true s
    let s₂ :=
      match s.gameMode with
      | GameMode.singleSong => { s₁ with hasGuessedCorrectly := true }
      | GameMode.guessArtist => { s₁ with hasGuessedArtistCorrectly := true }
      | _ => s₁
    { s₂ with audioPlaying := false, isRoundActive := false,
              isIntermission := true }

/-- Embedding of handleRoundEnd (JoinRoom.tsx lines 686-693): stop audio,
mark time up, leave Active, enter Intermission. -/
def handleRoundEnd (s : GameState) : GameState :=
  { s with audioPlaying := false, isTimeUp := true,
           isRoundActive := false, isIntermission := true }

/-- Embedding of the countdown timer effect (JoinRoom.tsx lines 792-811):
does nothing unless the round is active outside intermission; at
timeLeft ≤ 0 it runs handleRoundEnd, clears isRoundActive and emits
round-end; otherwise one tick decrements timeLeft. -/
def countdownStep (s : GameState) : GameState :=
  if ¬s.isRoundActive ∨ s.isIntermission then s
  else if s.timeLeft ≤ 0 then
    let s₁ := handleRoundEnd s
    { s₁ with isRoundActive := false, emitted := s₁.emitted ++ [OutEvent.roundEnd] }
  else { s with timeLeft := s.timeLeft - 1 }

/-- Embedding of handleContinueToNextRound (JoinRoom.tsx lines 696-725).
Only the host emits host-continue-round / host-end-game, but the local
state update runs for every client: a non-final round advances
currentRound, resets the timer, re-activates the round and exits
Intermission; the final round navigates to the end-game page. -/
def handleContinueToNextRound (s : GameState) : GameState :=
  let s₁ :=
    if s.isHost then
      if s.currentRound < s.totalRounds then
        { s with emitted := s.emitted ++
            [OutEvent.hostContinueRound (s.currentRound + 1) s.totalRounds] }
      else
        { s with emitted := s.emitted ++ [OutEvent.hostEndGame] }
    else s
  if s.currentRound < s.totalRounds then
    { s₁ with currentRound := s.currentRound + 1,
              timeLeft := (s.roundTimeSec : ℤ),
              isRoundActive := true,
              isIntermission := false,
              selectedIndex := none }
  else
    { s₁ with ended := true }

/-- Embedding of the continue-to-next-round handler onContinue
(JoinRoom.tsx lines 385-399). -/
def onContinue (nextRound : ℕ) (s : GameState) : GameState :=
  { s with currentRound := nextRound,
           timeLeft :=
             if s.isSinglePlayer then (s.roundTimeSec : ℤ)
             else
               match s.roomConfig with
               | some cfg => (cfg.guessTimeSec : ℤ)
               | none => 0,
           isRoundActive := true,
           isIntermission := false,
           selectedIndex := none,
           hasGuessedCorrectly := false,
           hasSelectedCorrectly := false,
           showCorrectAnswer := false,
           isTimeUp := false }

/-- Relation by which the score-update handler orders the roster:
the JS comparator (a, b) => b.points - a.points sorts by points
descending. -/
def pointsDesc (a b : Player) : Prop := b.points ≤ a.points

instance : DecidableRel pointsDesc := fun _ _ => inferInstanceAs (Decidable (_ ≤ _))

instance : IsTotal Player pointsDesc := ⟨fun a b => le_total b.points a.points⟩

instance : IsTrans Player pointsDesc := ⟨fun _ _ _ h₁ h₂ => le_trans h₂ h₁⟩

/-- Embedding of the score-update handler onScoreUpdate (JoinRoom.tsx
lines 377-383).  A missing payload is `none`; `!updatedPlayers?.length`
also catches the empty list.  The sorted copy (Array.prototype.sort with
the points-descending comparator) is modelled with insertionSort over
pointsDesc; find matches the first roster entry named like the local
player. -/
def onScoreUpdate (updatedPlayers : Option (List Player)) (s : GameState) :
    GameState :=
  match updatedPlayers with
  | none => s
  | some ps =>
    if ps.isEmpty then s
    else
      let sorted := List.insertionSort pointsDesc ps
      let s₁ := { s with players := sorted }
      match ps.find? (fun p => p.name = s.playerName) with
      | some me => { s₁ with player := me }
      | none => s₁

/-- Embedding of the round-start effect (JoinRoom.tsx lines 742-789).
When the re-entrancy lock is free: take the lock, stop audio, snapshot
previousPoints := points for the local player and the roster when
currentRound > 1, then reset the round-local transient state and record
the round start timestamp.  (The audio-start calls it then makes, and
the 1-second timer that releases the lock, are separate events.) -/
def roundStartEffect (now : ℤ) (s : GameState) : GameState :=
  if s.isRoundStarting then s
  else
    let s₁ := { s with isRoundStarting := true, audioPlaying := false }
    let s₂ :=
      if s₁.currentRound > 1 then
        { s₁ with
          player := { s₁.player with previousPoints := s₁.player.points }
          players := s₁.players.map (fun p => { p with previousPoints := p.points }) }
      else s₁
    { s₂ with isRoundActive := true,
              timeLeft := (s.roundTimeSec : ℤ),
              roundStartTime := some now,
              hasGuessedCorrectly := false,
              hasSelectedCorrectly := false,
              showCorrectAnswer := false,
              isTimeUp := false,
              hasPlayedSnippet := false,
              hasGuessedArtistCorrectly := false }

/-- The 1-second timer that releases the round-start re-entrancy lock
(JoinRoom.tsx lines 785-787). -/
def releaseRoundStartLock (s : GameState) : GameState :=
  { s with isRoundStarting := false }

/- ------------------------------------------------------------------ -/
/- Lock-in (claim C3)                                                  -/
/- ------------------------------------------------------------------ -/

lemma handleSelect_of_locked {s : GameState} (h : s.selectedIndex ≠ none)
    (now : ℤ) (i : ℕ) : handleSelect now i s = s := by
  simp [handleSelect, h]

lemma handleSelect_selectedIndex {s : GameState} (h : s.selectedIndex = none)
    (now : ℤ) (i : ℕ) : (handleSelect now i s).selectedIndex = some i := by
  unfold handleSelect
  rw [if_neg (by simp [h])]
  dsimp only
  split <;> rfl

lemma handleCorrectGuess_of_locked_single {s : GameState}
    (hm : s.gameMode = GameMode.singleSong) (hg : s.hasGuessedCorrectly = true)
    (now : ℤ) : handleCorrectGuess now s = s := by
  simp [handleCorrectGuess, hm, hg]

lemma handleCorrectGuess_of_locked_artist {s : GameState}
    (hm : s.gameMode = GameMode.guessArtist)
    (hg : s.hasGuessedArtistCorrectly = true)
    (now : ℤ) : handleCorrectGuess now s = s := by
  simp [handleCorrectGuess, hm, hg]

lemma handleCorrectGuess_gameMode (now : ℤ) (s : GameState) :
    (handleCorrectGuess now s).gameMode = s.gameMode := by
  unfold handleCorrectGuess addPointsToPlayer
  cases hm : s.gameMode <;> dsimp only <;> split <;> simp [hm]

lemma handleCorrectGuess_sets_single {s : GameState}
    (hm : s.gameMode = GameMode.singleSong) (now : ℤ) :
    (handleCorrectGuess now s).hasGuessedCorrectly = true ∨
      handleCorrectGuess now s = s ∧ s.hasGuessedCorrectly = true := by
  by_cases hg : s.hasGuessedCorrectly = true
  · exact Or.inr ⟨handleCorrectGuess_of_locked_single hm hg now, hg⟩
  · left
    unfold handleCorrectGuess addPointsToPlayer
    rw [hm]
    dsimp only
    rw [if_neg (by simpa using hg)]

lemma handleCorrectGuess_sets_artist {s : GameState}
    (hm : s.gameMode = GameMode.guessArtist) (now : ℤ) :
    (handleCorrectGuess now s).hasGuessedArtistCorrectly = true ∨
      handleCorrectGuess now s = s ∧ s.hasGuessedArtistCorrectly = true := by
  by_cases hg : s.hasGuessedArtistCorrectly = true
  · exact Or.inr ⟨handleCorrectGuess_of_locked_artist hm hg now, hg⟩
  · left
    unfold handleCorrectGuess addPointsToPlayer
    rw [hm]
    dsimp only
    rw [if_neg (by simpa using hg)]

/-- Claim C3: answer lock-in is exactly-once per round — a second
handleSelect after a first one is a no-op (so the whole state, points
included, is mutated exactly once), and in the modes that wire the
free-form guess callback a second handleCorrectGuess is likewise a
no-op. -/
theorem c3_lockin_exactly_once :
    (∀ (now₁ now₂ : ℤ) (i₁ i₂ : ℕ) (s : GameState),
      handleSelect now₂ i₂ (handleSelect now₁ i₁ s) = handleSelect now₁ i₁ s) ∧
    (∀ (now₁ now₂ : ℤ) (s : GameState),
      s.gameMode = GameMode.singleSong ∨ s.gameMode = GameMode.guessArtist →
      handleCorrectGuess now₂ (handleCorrectGuess now₁ s) =
        handleCorrectGuess now₁ s) := by
  constructor
  · intro now₁ now₂ i₁ i₂ s
    by_cases h : s.selectedIndex = none
    · exact handleSelect_of_locked
        (by simp [handleSelect_selectedIndex h]) now₂ i₂
    · rw [handleSelect_of_locked h, handleSelect_of_locked h]
  · rintro now₁ now₂ s (hm | hm)
    · rcases handleCorrectGuess_sets_single hm now₁ with hset | ⟨hid, hg⟩
      · exact handleCorrectGuess_of_locked_single
          ((handleCorrectGuess_gameMode now₁ s).trans hm) hset now₂
      · rw [hid]
        exact handleCorrectGuess_of_locked_single hm hg now₂
    · rcases handleCorrectGuess_sets_artist hm now₁ with hset | ⟨hid, hg⟩
      · exact handleCorrectGuess_of_locked_artist
          ((handleCorrectGuess_gameMode now₁ s).trans hm) hset now₂
      · rw [hid]
        exact handleCorrectGuess_of_locked_artist hm hg now₂

/-- A concrete non-host multiplayer state used for witnesses and
counterexamples. -/
def sampleState : GameState :=
  { playerName := "alice"
    isHost := false
    isSinglePlayer := false
    gameMode := GameMode.quickGuess
    totalRounds := 3
    roundTimeSec := 20
    roomConfig := some { guessTimeSec := 20, snippetDurationSec := some 3 }
    players := [{ name := "alice", points := 0, previousPoints := 0, correctAnswers := 0 }]
    player := { name := "alice", points := 0, previousPoints := 0, correctAnswers := 0 }
    currentRound := 1
    timeLeft := 0
    roundStartTime := none
    isRoundActive := false
    isIntermission := true
    selectedIndex := none
    hasGuessedCorrectly := false
    hasSelectedCorrectly := false
    hasGuessedArtistCorrectly := false
    showCorrectAnswer := false
    isTimeUp := false
    hasPlayedSnippet := false
    isRoundStarting := false
    options := []
    correctAnswer := ""
    audioPlaying := false
    emitted := []
    ended := false }

/-- Witness for C3: a concrete Single-Song state in which the second
correct-guess call changes nothing. -/
theorem c3_lockin_exactly_once_witness :
    ({ sampleState with gameMode := GameMode.singleSong }.gameMode =
        GameMode.singleSong ∨
      { sampleState with gameMode := GameMode.singleSong }.gameMode =
        GameMode.guessArtist) ∧
    handleCorrectGuess 1000
        (handleCorrectGuess 0 { sampleState with gameMode := GameMode.singleSong }) =
      handleCorrectGuess 0 { sampleState with gameMode := GameMode.singleSong } ∧
    handleSelect 1000 1 (handleSelect 0 0 sampleState) =
      handleSelect 0 0 sampleState :=
  ⟨Or.inl rfl,
    c3_lockin_exactly_once.2 0 1000 _ (Or.inl rfl),
    c3_lockin_exactly_once.1 0 1000 0 1 sampleState⟩

/- ------------------------------------------------------------------ -/
/- Non-host transitions (claim C5)                                     -/
/- ------------------------------------------------------------------ -/

/-- Claim C5 is false on the code: a non-host client in Intermission
that presses continue exits Intermission and advances its round with no
inbound server event involved and nothing emitted — a transition taken
entirely on its own initiative (the optimistic local update in
handleContinueToNextRound runs for every client, not just the host). -/
theorem c5_counterexample :
    sampleState.isHost = false ∧
    sampleState.isIntermission = true ∧
    (handleContinueToNextRound sampleState).isIntermission = false ∧
    (handleContinueToNextRound sampleState).isRoundActive = true ∧
    (handleContinueToNextRound sampleState).currentRound = 2 ∧
    (handleContinueToNextRound sampleState).emitted = [] :=
  ⟨rfl, rfl, rfl, rfl, rfl, rfl⟩

/-- Claim C5 corrected: a non-host client emits nothing on continue but
still advances its local state optimistically — below the final round it
increments currentRound, resets the timer, re-activates the round and
exits Intermission, and at the final round it navigates to the end-game
page; the countdown reaching zero, for its part, never changes the
current round number. -/
theorem c5_nonhost_transitions :
    (∀ s : GameState, s.isHost = false →
      (handleContinueToNextRound s).emitted = s.emitted ∧
      (s.currentRound < s.totalRounds →
        (handleContinueToNextRound s).currentRound = s.currentRound + 1 ∧
        (handleContinueToNextRound s).isIntermission = false ∧
        (handleContinueToNextRound s).isRoundActive = true ∧
        (handleContinueToNextRound s).timeLeft = (s.roundTimeSec : ℤ)) ∧
      (¬ s.currentRound < s.totalRounds →
        (handleContinueToNextRound s).ended = true)) ∧
    (∀ s : GameState, (countdownStep s).currentRound = s.currentRound) := by
  constructor
  · intro s h
    unfold handleContinueToNextRound
    rw [h]
    by_cases hr : s.currentRound < s.totalRounds
    · rw [if_pos hr]
      exact ⟨rfl, fun _ => ⟨rfl, rfl, rfl, rfl⟩, fun hc => absurd hr hc⟩
    · rw [if_neg hr]
      exact ⟨rfl, fun hc => absurd hc hr, fun _ => rfl⟩
  · intro s
    unfold countdownStep handleRoundEnd
    split
    · rfl
    · split <;> rfl

/-- Witness for C5's corrected statement at the concrete non-host state. -/
theorem c5_nonhost_transitions_witness :
    sampleState.isHost = false ∧
    (handleContinueToNextRound sampleState).emitted = sampleState.emitted ∧
    (countdownStep sampleState).currentRound = sampleState.currentRound :=
  ⟨rfl, (c5_nonhost_transitions.1 sampleState rfl).1,
    c5_nonhost_transitions.2 sampleState⟩

/- ------------------------------------------------------------------ -/
/- Timeout behaviour (claim C6)                                        -/
/- ------------------------------------------------------------------ -/

/-- A concrete active round with the countdown at zero and some points
already accumulated. -/
def activeTimeoutState : GameState :=
  { sampleState with
    isRoundActive := true
    isIntermission := false
    timeLeft := 0
    showCorrectAnswer := false
    player := { name := "alice", points := 340, previousPoints := 0, correctAnswers := 1 } }

/-- Claim C6 is false on the code in one conjunct: on timeout the
controller stops audio, sets the timed-out flag and enters Intermission
without touching points, but it does NOT set the reveal-answer flag
(showCorrectAnswer) to true — handleRoundEnd leaves it at the value it
had, false here (the intermission view reveals the answer from the
timed-out flag instead). -/
theorem c6_counterexample :
    activeTimeoutState.isRoundActive = true ∧
    activeTimeoutState.isIntermission = false ∧
    activeTimeoutState.timeLeft ≤ 0 ∧
    (countdownStep activeTimeoutState).isTimeUp = true ∧
    (countdownStep activeTimeoutState).isIntermission = true ∧
    (countdownStep activeTimeoutState).player.points = 340 ∧
    ¬ (countdownStep activeTimeoutState).showCorrectAnswer = true :=
  ⟨rfl, rfl, le_refl 0, rfl, rfl, rfl, fun h => Bool.false_ne_true h⟩

/-- Claim C6 corrected: when the countdown reaches zero during an active
round the controller stops audio, sets the timed-out flag, enters
Intermission, emits round-end, and awards no points (player and roster
unchanged); the reveal-answer flag (showCorrectAnswer) is left unchanged
rather than set to true. -/
theorem c6_timeout_no_points :
    ∀ s : GameState, s.isRoundActive = true → s.isIntermission = false →
      s.timeLeft ≤ 0 →
      (countdownStep s).audioPlaying = false ∧
      (countdownStep s).isTimeUp = true ∧
      (countdownStep s).isIntermission = true ∧
      (countdownStep s).isRoundActive = false ∧
      (countdownStep s).player = s.player ∧
      (countdownStep s).players = s.players ∧
      (countdownStep s).showCorrectAnswer = s.showCorrectAnswer ∧
      (countdownStep s).emitted = s.emitted ++ [OutEvent.roundEnd] := by
  intro s ha hi ht
  unfold countdownStep handleRoundEnd
  rw [if_neg (by simp [ha, hi]), if_pos ht]
  exact ⟨rfl, rfl, rfl, rfl, rfl, rfl, rfl, rfl⟩

/-- Witness for C6's corrected statement at the concrete timed-out state. -/
theorem c6_timeout_no_points_witness :
    (activeTimeoutState.isRoundActive = true ∧
      activeTimeoutState.isIntermission = false ∧
      activeTimeoutState.timeLeft ≤ 0) ∧
    (countdownStep activeTimeoutState).isTimeUp = true ∧
    (countdownStep activeTimeoutState).player = activeTimeoutState.player :=
  ⟨⟨rfl, rfl, le_refl 0⟩,
    (c6_timeout_no_points activeTimeoutState rfl rfl (le_refl 0)).2.1,
    (c6_timeout_no_points activeTimeoutState rfl rfl (le_refl 0)).2.2.2.2.1⟩

/- ------------------------------------------------------------------ -/
/- Round-advance idempotence (claim C7)                                -/
/- ------------------------------------------------------------------ -/

/-- Claim C7: handling continue-to-next-round is idempotent in its
payload — receiving the event for round n twice in a row leaves the
current round exactly n, with the timer reset (to a value independent of
the previous timeLeft) and Intermission exited. -/
theorem c7_onContinue_idempotent :
    ∀ (n : ℕ) (s : GameState),
      onContinue n (onContinue n s) = onContinue n s ∧
      (onContinue n s).currentRound = n ∧
      (onContinue n s).isIntermission = false ∧
      (onContinue n s).isRoundActive = true ∧
      (∀ t : ℤ, (onContinue n { s with timeLeft := t }).timeLeft =
        (onContinue n s).timeLeft) :=
  fun _ _ => ⟨rfl, rfl, rfl, rfl, fun _ => rfl⟩

/- ------------------------------------------------------------------ -/
/- Scoring side effects and round-boundary snapshot (claim C9)         -/
/- ------------------------------------------------------------------ -/

lemma map_update_preserves_previousPoints (nm : String) (pts ca : ℤ)
    (l : List Player) :
    (l.map (fun p => if p.name = nm then
        { p with points := pts, correctAnswers := ca } else p)).map
      Player.previousPoints = l.map Player.previousPoints := by
  induction l with
  | nil => rfl
  | cons a t ih =>
    by_cases ha : a.name = nm <;> simp [ha, ih]

lemma map_update_preserves_name (nm : String) (pts ca : ℤ)
    (l : List Player) :
    (l.map (fun p => if p.name = nm then
        { p with points := pts, correctAnswers := ca } else p)).map
      Player.name = l.map Player.name := by
  induction l with
  | nil => rfl
  | cons a t ih =>
    by_cases ha : a.name = nm <;> simp [ha, ih]

lemma handleSelect_previousPoints (now : ℤ) (i : ℕ) (s : GameState) :
    (handleSelect now i s).player.previousPoints = s.player.previousPoints := by
  unfold handleSelect addPointsToPlayer
  split
  · rfl
  · dsimp only
    split <;> rfl

lemma handleCorrectGuess_previousPoints (now : ℤ) (s : GameState) :
    (handleCorrectGuess now s).player.previousPoints =
      s.player.previousPoints := by
  unfold handleCorrectGuess addPointsToPlayer
  cases hm : s.gameMode <;> dsimp only <;> split <;> rfl

/-- Claim C9: addPointsToPlayer adds the delta to the player's points,
increments correctAnswers exactly when the answer was correct, and leaves
previousPoints and name untouched (also across the roster); the snapshot
previousPoints := points happens, for the local player and every roster
entry, exactly at a round-start whose round number exceeds 1 — the other
controller operations never write previousPoints. -/
theorem c9_applyPoints_frame :
    (∀ (delta : ℤ) (correct : Bool) (s : GameState),
      (addPointsToPlayer delta correct s).player.points = s.player.points + delta ∧
      (addPointsToPlayer delta correct s).player.correctAnswers =
        s.player.correctAnswers + (if correct then 1 else 0) ∧
      (addPointsToPlayer delta correct s).player.previousPoints =
        s.player.previousPoints ∧
      (addPointsToPlayer delta correct s).player.name = s.player.name ∧
      (addPointsToPlayer delta correct s).players.map Player.previousPoints =
        s.players.map Player.previousPoints ∧
      (addPointsToPlayer delta correct s).players.map Player.name =
        s.players.map Player.name) ∧
    (∀ (now : ℤ) (s : GameState), s.isRoundStarting = false →
      1 < s.currentRound →
      (roundStartEffect now s).player.previousPoints = s.player.points ∧
      (roundStartEffect now s).players =
        s.players.map (fun p => { p with previousPoints := p.points })) ∧
    (∀ (now : ℤ) (s : GameState), s.isRoundStarting = false →
      s.currentRound ≤ 1 →
      (roundStartEffect now s).player.previousPoints =
        s.player.previousPoints ∧
      (roundStartEffect now s).players = s.players) ∧
    (∀ (now : ℤ) (i : ℕ) (s : GameState),
      (handleSelect now i s).player.previousPoints = s.player.previousPoints) ∧
    (∀ (now : ℤ) (s : GameState),
      (handleCorrectGuess now s).player.previousPoints =
        s.player.previousPoints) ∧
    (∀ s : GameState,
      (countdownStep s).player.previousPoints = s.player.previousPoints) ∧
    (∀ (n : ℕ) (s : GameState),
      (onContinue n s).player.previousPoints = s.player.previousPoints) ∧
    (∀ s : GameState,
      (handleContinueToNextRound s).player.previousPoints =
        s.player.previousPoints) := by
  refine ⟨?_, ?_, ?_, handleSelect_previousPoints,
    handleCorrectGuess_previousPoints, ?_, fun _ _ => rfl, ?_⟩
  · intro delta correct s
    refine ⟨rfl, ?_, rfl, rfl,
      map_update_preserves_previousPoints _ _ _ _,
      map_update_preserves_name _ _ _ _⟩
    by_cases hc : correct <;> simp [addPointsToPlayer, hc]
  · intro now s h hr
    unfold roundStartEffect
    rw [if_neg (by simp [h])]
    dsimp only
    rw [if_pos hr]
    exact ⟨rfl, rfl⟩
  · intro now s h hr
    unfold roundStartEffect
    rw [if_neg (by simp [h])]
    dsimp only
    rw [if_neg (by omega)]
    exact ⟨rfl, rfl⟩
  · intro s
    unfold countdownStep handleRoundEnd
    split
    · rfl
    · split <;> rfl
  · intro s
    unfold handleContinueToNextRound
    dsimp only
    split <;> split <;> rfl

/-- Witness for C9 at concrete inputs: adding 775 correct points to the
sample player, and the round-2 snapshot. -/
theorem c9_applyPoints_frame_witness :
    (addPointsToPlayer 775 true sampleState).player.points =
      sampleState.player.points + 775 ∧
    (addPointsToPlayer 775 true sampleState).player.previousPoints =
      sampleState.player.previousPoints ∧
    ({ sampleState with currentRound := 2 }.isRoundStarting = false ∧
      1 < ({ sampleState with currentRound := 2 } : GameState).currentRound) ∧
    (roundStartEffect 0 { sampleState with currentRound := 2 }).player.previousPoints =
      sampleState.player.points :=
  ⟨(c9_applyPoints_frame.1 775 true sampleState).1,
    (c9_applyPoints_frame.1 775 true sampleState).2.2.1,
    ⟨rfl, by decide⟩,
    (c9_applyPoints_frame.2.1 0 { sampleState with currentRound := 2 }
      rfl (by decide)).1⟩

/- ------------------------------------------------------------------ -/
/- score-update handling (claim C10)                                   -/
/- ------------------------------------------------------------------ -/

/-- Claim C10: a missing or empty score-update payload leaves roster and
local player untouched; a non-empty payload replaces the roster with the
payload sorted by points descending (a permutation of the payload,
sorted under pointsDesc), and replaces the local player exactly when the
payload contains an entry carrying the local player's name (the first
such entry). -/
theorem c10_onScoreUpdate_correct :
    (∀ s : GameState, onScoreUpdate none s = s) ∧
    (∀ s : GameState, onScoreUpdate (some []) s = s) ∧
    (∀ (ps : List Player) (s : GameState), ps ≠ [] →
      (onScoreUpdate (some ps) s).players.Perm ps ∧
      List.Sorted pointsDesc (onScoreUpdate (some ps) s).players ∧
      (∀ me : Player, ps.find? (fun p => p.name = s.playerName) = some me →
        (onScoreUpdate (some ps) s).player = me) ∧
      (ps.find? (fun p => p.name = s.playerName) = none →
        (onScoreUpdate (some ps) s).player = s.player)) := by
  refine ⟨fun s => rfl, fun s => rfl, ?_⟩
  intro ps s hne
  have hemp : ps.isEmpty = false := by
    cases ps with
    | nil => exact absurd rfl hne
    | cons a t => rfl
  unfold onScoreUpdate
  dsimp only
  rw [if_neg (by simp [hemp])]
  refine ⟨?_, ?_, ?_, ?_⟩
  · rcases hfind : ps.find? (fun p => p.name = s.playerName) with _ | me <;>
      rw [hfind] <;> exact List.perm_insertionSort pointsDesc ps
  · rcases hfind : ps.find? (fun p => p.name = s.playerName) with _ | me <;>
      rw [hfind] <;> exact List.sorted_insertionSort pointsDesc ps
  · intro me hfind
    rw [hfind]
  · intro hfind
    rw [hfind]

/-- Witness for C10: Bob leads Alice 120 to 75; the roster is re-sorted
and the local player (Alice) replaced by her payload entry. -/
theorem c10_onScoreUpdate_correct_witness :
    ([({ name := "bob", points := 120, previousPoints := 0, correctAnswers := 2 } : Player),
      { name := "alice", points := 75, previousPoints := 0, correctAnswers := 1 }] ≠
        ([] : List Player)) ∧
    (onScoreUpdate
        (some [{ name := "bob", points := 120, previousPoints := 0, correctAnswers := 2 },
               { name := "alice", points := 75, previousPoints := 0, correctAnswers := 1 }])
        sampleState).players.Perm
      [{ name := "bob", points := 120, previousPoints := 0, correctAnswers := 2 },
       { name := "alice", points := 75, previousPoints := 0, correctAnswers := 1 }] ∧
    (onScoreUpdate
        (some [{ name := "bob", points := 120, previousPoints := 0, correctAnswers := 2 },
               { name := "alice", points := 75, previousPoints := 0, correctAnswers := 1 }])
        sampleState).player =
      { name := "alice", points := 75, previousPoints := 0, correctAnswers := 1 } := by
  refine ⟨by decide, ?_, ?_⟩
  · exact (c10_onScoreUpdate_correct.2.2 _ sampleState (by decide)).1
  · exact (c10_onScoreUpdate_correct.2.2 _ sampleState (by decide)).2.2.1 _ (by decide)

/- ------------------------------------------------------------------ -/
/- PlaybackSession audio-element state: stopSong (claim C8)            -/
/- ------------------------------------------------------------------ -/

/-- An HTMLAudioElement as the playback code observes it. -/
structure AudioEl where
  src : String
  paused : Bool
  currentTime : ℚ
deriving DecidableEq, Repr

/-- Audio-element state of SongService: the single handle (currentAudio)
and the simultaneous handles (multiAudios).  `released` is a ghost log
recording each handle in the state it was left in when the service
dropped its reference to it. -/
structure PlayState where
  currentAudio : Option AudioEl
  multiAudios : List AudioEl
  released : List AudioEl
deriving DecidableEq, Repr

/-- Embedding of stopMultiSong (songServices.ts lines 293-299): pause
every multi handle, rewind it to 0, then drop the list. -/
def stopMultiSong (s : PlayState) : PlayState :=
  { s with
    multiAudios := []
    released := s.released ++
      s.multiAudios.map (fun a => { a with paused := true, currentTime := 0 }) }

/-- Embedding of stopSong (songServices.ts lines 177-187): when a single
handle exists, pause it, clear its src and reload it (load() rewinds the
element) and null the field; then stopMultiSong. -/
def stopSong (s : PlayState) : PlayState :=
  let s₁ :=
    match s.currentAudio with
    | some a =>
      { s with
        currentAudio := none
        released := s.released ++ [{ a with paused := true, src := "", currentTime := 0 }] }
    | none => s
  stopMultiSong s₁

/-- Claim C8: stopSong is idempotent and total — one call leaves no
active handle (currentAudio is null and the multi list empty, the
dropped single handle paused with its source detached), a second
consecutive call changes nothing at all, and calling it when nothing is
playing leaves the state untouched. -/
theorem c8_stopSong_idempotent :
    ∀ s : PlayState,
      (stopSong s).currentAudio = none ∧
      (stopSong s).multiAudios = [] ∧
      stopSong (stopSong s) = stopSong s ∧
      (∀ a : AudioEl, s.currentAudio = some a →
        { a with paused := true, src := "", currentTime := 0 } ∈
          (stopSong s).released) ∧
      (s.currentAudio = none → s.multiAudios = [] → stopSong s = s) := by
  intro s
  obtain ⟨c, m, r⟩ := s
  refine ⟨?_, ?_, ?_, ?_, ?_⟩
  · cases c <;> rfl
  · cases c <;> rfl
  · cases c <;> simp [stopSong, stopMultiSong]
  · intro a ha
    cases c with
    | none => exact absurd ha (by simp)
    | some b =>
      have hb : b = a := by simpa using ha
      subst hb
      simp [stopSong, stopMultiSong]
  · intro hc hm
    dsimp only at hc hm
    subst hc
    subst hm
    simp [stopSong, stopMultiSong]

/-- Witness for C8 at a concrete playing state. -/
theorem c8_stopSong_idempotent_witness :
    (({ currentAudio := some { src := "a.mp3", paused := false, currentTime := 7 },
        multiAudios := [], released := [] } : PlayState).currentAudio =
      some { src := "a.mp3", paused := false, currentTime := 7 }) ∧
    ({ src := "", paused := true, currentTime := 0 } : AudioEl) ∈
      (stopSong { currentAudio := some { src := "a.mp3", paused := false, currentTime := 7 },
                  multiAudios := [], released := [] }).released ∧
    stopSong (stopSong { currentAudio := some { src := "a.mp3", paused := false, currentTime := 7 },
                         multiAudios := [], released := [] }) =
      stopSong { currentAudio := some { src := "a.mp3", paused := false, currentTime := 7 },
                 multiAudios := [], released := [] } :=
  ⟨rfl,
    (c8_stopSong_idempotent
        { currentAudio := some { src := "a.mp3", paused := false, currentTime := 7 },
          multiAudios := [], released := [] }).2.2.2.1
      { src := "a.mp3", paused := false, currentTime := 7 } rfl,
    (c8_stopSong_idempotent
        { currentAudio := some { src := "a.mp3", paused := false, currentTime := 7 },
          multiAudios := [], released := [] }).2.2.1⟩

/- ------------------------------------------------------------------ -/
/- PlaybackSession ownership-token machine (claims C2, C4)             -/
/- ------------------------------------------------------------------ -/

/-- The four single-handle play operations of SongService.  playSong and
playRoomSong await play() and then fire onTrackChange behind a token
check; playRoomQuickSnippet token-checks its canplay/play continuation
and its delayed stop; playQuickSnippet (songServices.ts lines 190-242)
neither increments nor checks the token. -/
inductive OpKind
  | single
  | roomSingle
  | snippet
  | roomSnippet
deriving DecidableEq, Repr

/-- Whether issuing the operation runs `const myToken = ++this.playToken`.
true for playSong (line 133), playRoomSong (line 379) and
playRoomQuickSnippet (line 400); playQuickSnippet never touches the
token. -/
def tokenIncr : OpKind → Bool
  | OpKind.snippet => false
  | _ => true

/-- Whether the operation checks `myToken === this.playToken` before
firing onTrackChange.  playQuickSnippet fires it unconditionally. -/
def tokenChecked : OpKind → Bool
  | OpKind.snippet => false
  | _ => true

/-- An issued play operation awaiting its asynchronous continuation:
its kind and the token value it captured at issue time. -/
structure PendingOp where
  kind : OpKind
  myToken : ℕ
deriving DecidableEq, Repr

/-- Token-level state of SongService.  Audio handles are abstracted to
the id of the operation that created them: currentAudio names the
operation owning the single handle; notifs logs the operation ids whose
onTrackChange callback fired, in order; pending holds issued operations
whose readiness continuation has not yet run; stopTimers holds the
delayed snippet stops scheduled by safeSetTimeoutAsync. -/
structure Session where
  playToken : ℕ
  currentAudio : Option ℕ
  notifs : List ℕ
  pending : List (ℕ × PendingOp)
  stopTimers : List (ℕ × PendingOp)
deriving DecidableEq, Repr

def initSession : Session :=
  { playToken := 0, currentAudio := none, notifs := [], pending := [],
    stopTimers := [] }

/-- Events interleaved by the JavaScript event loop: issuing one of the
four play operations (its synchronous prefix), the operation's readiness
continuation (await play() resuming, or the canplay handler together
with the .then of play()), and a scheduled snippet stop firing. -/
inductive Ev
  | issue (id : ℕ) (k : OpKind)
  | ready (id : ℕ)
  | stopFire (id : ℕ)
deriving DecidableEq, Repr

/-- Synchronous prefix of a play operation: capture
myToken = ++this.playToken (playQuickSnippet skips the increment), run
stopSong() — which drops the previous single handle — and install the
freshly created Audio element. -/
def capturedToken (k : OpKind) (t : ℕ) : ℕ := if tokenIncr k then t + 1 else t

def issueStep (id : ℕ) (k : OpKind) (s : Session) : Session :=
  { s with playToken := capturedToken k s.playToken
           currentAudio := some id
           pending := s.pending ++
             [(id, { kind := k, myToken := capturedToken k s.playToken })] }

/-- Readiness continuation of an issued operation.  playSong and
playRoomSong: `if (myToken !== this.playToken) return;` then
onTrackChange.  playRoomQuickSnippet: the canplay handler bails on a
stale token, otherwise plays, re-checks the token, fires onTrackChange
and schedules the delayed stop.  playQuickSnippet: plays, fires
onTrackChange and schedules the stop with no token check at all. -/
def readyStep (id : ℕ) (s : Session) : Session :=
  match s.pending.find? (fun e => e.1 = id) with
  | none => s
  | some (_, p) =>
    let s₁ := { s with pending := s.pending.eraseP (fun e => e.1 = id) }
    match p.kind with
    | OpKind.single =>
      if p.myToken = s₁.playToken then { s₁ with notifs := s₁.notifs ++ [id] }
      else s₁
    | OpKind.roomSingle =>
      if p.myToken = s₁.playToken then { s₁ with notifs := s₁.notifs ++ [id] }
      else s₁
    | OpKind.roomSnippet =>
      if p.myToken = s₁.playToken then
        { s₁ with notifs := s₁.notifs ++ [id]
                  stopTimers := s₁.stopTimers ++ [(id, p)] }
      else s₁
    | OpKind.snippet =>
      { s₁ with notifs := s₁.notifs ++ [id]
                stopTimers := s₁.stopTimers ++ [(id, p)] }

/-- A scheduled snippet stop firing after durationSec.
playRoomQuickSnippet guards it: `if (myToken === this.playToken)
this.stopSong()`.  playQuickSnippet calls this.stopSong()
unconditionally. -/
def stopFireStep (id : ℕ) (s : Session) : Session :=
  match s.stopTimers.find? (fun e => e.1 = id) with
  | none => s
  | some (_, p) =>
    let s₁ := { s with stopTimers := s.stopTimers.eraseP (fun e => e.1 = id) }
    match p.kind with
    | OpKind.snippet => { s₁ with currentAudio := none }
    | OpKind.roomSnippet =>
      if p.myToken = s₁.playToken then { s₁ with currentAudio := none } else s₁
    | _ => s₁

def sessionStep (s : Session) (e : Ev) : Session :=
  match e with
  | Ev.issue id k => issueStep id k s
  | Ev.ready id => readyStep id s
  | Ev.stopFire id => stopFireStep id s

/-- Run a whole interleaving of play events. -/
def runSession (s : Session) (tr : List Ev) : Session :=
  tr.foldl sessionStep s

lemma capturedToken_ge (k : OpKind) (t : ℕ) : t ≤ capturedToken k t := by
  unfold capturedToken
  split <;> omega

lemma readyStep_playToken (id : ℕ) (s : Session) :
    (readyStep id s).playToken = s.playToken := by
  unfold readyStep
  split
  · rfl
  · dsimp only
    split
    case h_1 => split <;> rfl
    case h_2 => split <;> rfl
    case h_3 => split <;> rfl
    case h_4 => rfl

lemma readyStep_pending_sub (id : ℕ) (s : Session) {q : ℕ × PendingOp}
    (hq : q ∈ (readyStep id s).pending) : q ∈ s.pending := by
  unfold readyStep at hq
  split at hq
  · exact hq
  · dsimp only at hq
    split at hq
    case h_1 => split at hq <;> exact (List.eraseP_sublist _).subset hq
    case h_2 => split at hq <;> exact (List.eraseP_sublist _).subset hq
    case h_3 => split at hq <;> exact (List.eraseP_sublist _).subset hq
    case h_4 => exact (List.eraseP_sublist _).subset hq

lemma readyStep_stopTimers_sub (id : ℕ) (s : Session) {q : ℕ × PendingOp}
    (hq : q ∈ (readyStep id s).stopTimers) :
    q ∈ s.stopTimers ∨ (q.1 = id ∧ q ∈ s.pending) := by
  unfold readyStep at hq
  split at hq
  · exact Or.inl hq
  · rename_i a q₀ hfind
    have hmem : (a, q₀) ∈ s.pending := List.mem_of_find?_eq_some hfind
    have hkey : a = id := by
      have := List.find?_some hfind
      simpa using this
    subst hkey
    dsimp only at hq
    split at hq
    case h_1 => split at hq <;> exact Or.inl hq
    case h_2 => split at hq <;> exact Or.inl hq
    case h_3 =>
      split at hq
      · rcases List.mem_append.mp hq with h | h
        · exact Or.inl h
        · have hqe : q = (a, q₀) := by simpa using h
          subst hqe
          exact Or.inr ⟨rfl, hmem⟩
      · exact Or.inl hq
    case h_4 =>
      rcases List.mem_append.mp hq with h | h
      · exact Or.inl h
      · have hqe : q = (a, q₀) := by simpa using h
        subst hqe
        exact Or.inr ⟨rfl, hmem⟩

lemma readyStep_notifs_mem (id : ℕ) (s : Session) {i : ℕ}
    (hi : i ∈ (readyStep id s).notifs) : i ∈ s.notifs ∨ i = id := by
  unfold readyStep at hi
  split at hi
  · exact Or.inl hi
  · dsimp only at hi
    split at hi
    case h_1 =>
      split at hi
      · rcases List.mem_append.mp hi with h | h
        · exact Or.inl h
        · exact Or.inr (by simpa using h)
      · exact Or.inl hi
    case h_2 =>
      split at hi
      · rcases List.mem_append.mp hi with h | h
        · exact Or.inl h
        · exact Or.inr (by simpa using h)
      · exact Or.inl hi
    case h_3 =>
      split at hi
      · rcases List.mem_append.mp hi with h | h
        · exact Or.inl h
        · exact Or.inr (by simpa using h)
      · exact Or.inl hi
    case h_4 =>
      rcases List.mem_append.mp hi with h | h
      · exact Or.inl h
      · exact Or.inr (by simpa using h)

lemma stopFireStep_playToken (id : ℕ) (s : Session) :
    (stopFireStep id s).playToken = s.playToken := by
  unfold stopFireStep
  split
  · rfl
  · dsimp only
    split
    case h_1 => rfl
    case h_2 => split <;> rfl
    case h_3 => rfl

lemma stopFireStep_pending (id : ℕ) (s : Session) :
    (stopFireStep id s).pending = s.pending := by
  unfold stopFireStep
  split
  · rfl
  · dsimp only
    split
    case h_1 => rfl
    case h_2 => split <;> rfl
    case h_3 => rfl

lemma stopFireStep_notifs (id : ℕ) (s : Session) :
    (stopFireStep id s).notifs = s.notifs := by
  unfold stopFireStep
  split
  · rfl
  · dsimp only
    split
    case h_1 => rfl
    case h_2 => split <;> rfl
    case h_3 => rfl

lemma stopFireStep_stopTimers_sub (id : ℕ) (s : Session) {q : ℕ × PendingOp}
    (hq : q ∈ (stopFireStep id s).stopTimers) : q ∈ s.stopTimers := by
  unfold stopFireStep at hq
  split at hq
  · exact hq
  · dsimp only at hq
    split at hq
    case h_1 => exact (List.eraseP_sublist _).subset hq
    case h_2 => split at hq <;> exact (List.eraseP_sublist _).subset hq
    case h_3 => exact (List.eraseP_sublist _).subset hq

/-- All captured tokens held in pending operations or scheduled stops are
bounded by the current play token. -/
def tokensBounded (s : Session) : Prop :=
  (∀ q ∈ s.pending, (Prod.snd q).myToken ≤ s.playToken) ∧
  (∀ q ∈ s.stopTimers, (Prod.snd q).myToken ≤ s.playToken)

lemma tokensBounded_init : tokensBounded initSession := by
  constructor <;> intro q hq <;> simp [initSession] at hq

lemma tokensBounded_sessionStep {s : Session} (h : tokensBounded s) (e : Ev) :
    tokensBounded (sessionStep s e) := by
  obtain ⟨h₁, h₂⟩ := h
  cases e with
  | issue id k =>
    constructor
    · intro q hq
      simp only [sessionStep, issueStep] at hq ⊢
      rcases List.mem_append.mp hq with hl | hr
      · exact le_trans (h₁ q hl) (capturedToken_ge k s.playToken)
      · have : q = (id, { kind := k, myToken := capturedToken k s.playToken }) := by
          simpa using hr
        subst this
        exact le_refl _
    · intro q hq
      simp only [sessionStep, issueStep] at hq ⊢
      exact le_trans (h₂ q hq) (capturedToken_ge k s.playToken)
  | ready id =>
    constructor
    · intro q hq
      simp only [sessionStep] at hq ⊢
      rw [readyStep_playToken]
      exact h₁ q (readyStep_pending_sub id s hq)
    · intro q hq
      simp only [sessionStep] at hq ⊢
      rw [readyStep_playToken]
      rcases readyStep_stopTimers_sub id s hq with hl | ⟨_, hr⟩
      · exact h₂ q hl
      · exact h₁ q hr
  | stopFire id =>
    constructor
    · intro q hq
      simp only [sessionStep] at hq ⊢
      rw [stopFireStep_playToken]
      rw [stopFireStep_pending] at hq
      exact h₁ q hq
    · intro q hq
      simp only [sessionStep] at hq ⊢
      rw [stopFireStep_playToken]
      exact h₂ q (stopFireStep_stopTimers_sub id s hq)

lemma tokensBounded_runSession {s : Session} (h : tokensBounded s)
    (tr : List Ev) : tokensBounded (runSession s tr) := by
  induction tr generalizing s with
  | nil => exact h
  | cons e tr ih => exact ih (tokensBounded_sessionStep h e)

lemma runSession_entry_issued :
    ∀ (tr : List Ev) (s : Session) (i : ℕ) (p : PendingOp),
      ((i, p) ∈ (runSession s tr).pending ∨
        (i, p) ∈ (runSession s tr).stopTimers) →
      ((i, p) ∈ s.pending ∨ (i, p) ∈ s.stopTimers) ∨ Ev.issue i p.kind ∈ tr := by
  intro tr
  induction tr with
  | nil => exact fun s i p h => Or.inl h
  | cons e tr ih =>
    intro s i p h
    have hstep := ih (sessionStep s e) i p h
    rcases hstep with hin | hiss
    · cases e with
      | issue j k =>
        rcases hin with hp | ht
        · simp only [sessionStep, issueStep] at hp
          rcases List.mem_append.mp hp with hl | hr
          · exact Or.inl (Or.inl hl)
          · have hji : i = j ∧ p = { kind := k, myToken := capturedToken k s.playToken } := by
              simpa [Prod.ext_iff] using hr
            right
            rw [hji.1, show p.kind = k by rw [hji.2]]
            exact List.mem_cons_self _ _
        · simp only [sessionStep, issueStep] at ht
          exact Or.inl (Or.inr ht)
      | ready id =>
        rcases hin with hp | ht
        · exact Or.inl (Or.inl (readyStep_pending_sub id s hp))
        · rcases readyStep_stopTimers_sub id s ht with hl | ⟨_, hr⟩
          · exact Or.inl (Or.inr hl)
          · exact Or.inl (Or.inl hr)
      | stopFire id =>
        rcases hin with hp | ht
        · rw [sessionStep, stopFireStep_pending] at hp
          exact Or.inl (Or.inl hp)
        · exact Or.inl (Or.inr (stopFireStep_stopTimers_sub id s ht))
    · exact Or.inr (List.mem_cons_of_mem _ hiss)

lemma runSession_notif_ready :
    ∀ (tr : List Ev) (s : Session) (i : ℕ),
      i ∈ (runSession s tr).notifs → i ∈ s.notifs ∨ Ev.ready i ∈ tr := by
  intro tr
  induction tr with
  | nil => exact fun s i h => Or.inl h
  | cons e tr ih =>
    intro s i h
    rcases ih (sessionStep s e) i h with hin | hr
    · cases e with
      | issue j k => exact Or.inl hin
      | ready id =>
        rcases readyStep_notifs_mem id s hin with hl | hid
        · exact Or.inl hl
        · subst hid
          exact Or.inr (List.mem_cons_self _ _)
      | stopFire id =>
        rw [sessionStep, stopFireStep_notifs] at hin
        exact Or.inl hin
    · exact Or.inr (List.mem_cons_of_mem _ hr)

/-- Operation i has been superseded: it never notified, and every pending
continuation it still owns is token-checked and carries a token strictly
below the current play token. -/
def StaleFor (i : ℕ) (s : Session) : Prop :=
  i ∉ s.notifs ∧
  ∀ p : PendingOp, (i, p) ∈ s.pending →
    tokenChecked p.kind = true ∧ p.myToken < s.playToken

lemma readyStep_stale (i : ℕ) (s : Session)
    (h : ∀ p : PendingOp, (i, p) ∈ s.pending →
      tokenChecked p.kind = true ∧ p.myToken < s.playToken) :
    (readyStep i s).notifs = s.notifs ∧
      (readyStep i s).stopTimers = s.stopTimers := by
  unfold readyStep
  split
  · exact ⟨rfl, rfl⟩
  · rename_i a q₀ hfind
    have hmem : (a, q₀) ∈ s.pending := List.mem_of_find?_eq_some hfind
    have hkey : a = i := by simpa using List.find?_some hfind
    subst hkey
    obtain ⟨hchk, hlt⟩ := h q₀ hmem
    dsimp only
    split
    case h_1 => rw [if_neg (by omega)]; exact ⟨rfl, rfl⟩
    case h_2 => rw [if_neg (by omega)]; exact ⟨rfl, rfl⟩
    case h_3 => rw [if_neg (by omega)]; exact ⟨rfl, rfl⟩
    case h_4 =>
      rename_i hk
      rw [hk] at hchk
      exact absurd hchk (by simp [tokenChecked])

lemma staleFor_sessionStep {i : ℕ} {s : Session} (h : StaleFor i s) {e : Ev}
    (he : ∀ k, e ≠ Ev.issue i k) : StaleFor i (sessionStep s e) := by
  obtain ⟨hn, hp⟩ := h
  cases e with
  | issue j k =>
    have hji : j ≠ i := fun hji => he k (by rw [hji])
    constructor
    · simpa [sessionStep, issueStep] using hn
    · intro p hmem
      simp only [sessionStep, issueStep] at hmem ⊢
      rcases List.mem_append.mp hmem with hl | hr
      · obtain ⟨hc, hlt⟩ := hp p hl
        exact ⟨hc, lt_of_lt_of_le hlt (capturedToken_ge k s.playToken)⟩
      · exact absurd (by simpa [Prod.ext_iff] using hr : i = j ∧ _) (by simp [hji.symm])
  | ready id =>
    by_cases hid : id = i
    · subst hid
      obtain ⟨hnotif, _⟩ := readyStep_stale id s hp
      constructor
      · rw [sessionStep, hnotif]
        exact hn
      · intro p hmem
        rw [sessionStep] at hmem
        obtain ⟨hc, hlt⟩ := hp p (readyStep_pending_sub id s hmem)
        rw [sessionStep, readyStep_playToken]
        exact ⟨hc, hlt⟩
    · constructor
      · intro hmem
        rw [sessionStep] at hmem
        rcases readyStep_notifs_mem id s hmem with hl | hr
        · exact hn hl
        · exact hid hr.symm
      · intro p hmem
        rw [sessionStep] at hmem ⊢
        rw [readyStep_playToken]
        exact hp p (readyStep_pending_sub id s hmem)
  | stopFire id =>
    constructor
    · rw [sessionStep, stopFireStep_notifs]
      exact hn
    · intro p hmem
      rw [sessionStep, stopFireStep_pending] at hmem
      rw [sessionStep, stopFireStep_playToken]
      exact hp p hmem

lemma staleFor_runSession {i : ℕ} {s : Session} (h : StaleFor i s)
    {tr : List Ev} (htr : ∀ k, Ev.issue i k ∉ tr) :
    StaleFor i (runSession s tr) := by
  induction tr generalizing s with
  | nil => exact h
  | cons e tr ih =>
    refine ih (staleFor_sessionStep h ?_) ?_
    · intro k hk
      exact htr k (hk ▸ List.mem_cons_self _ _)
    · intro k hk
      exact htr k (List.mem_cons_of_mem _ hk)

/-- Claim C2 is false on the code as universally stated: playQuickSnippet
(songServices.ts lines 190-242) neither increments nor checks the
ownership token.  In the trace below, playSong (op 1) is issued, then
playQuickSnippet (op 2) is issued before op 1's playback continuation
runs; because op 2 left the token untouched, op 1's token check passes
and the superseded op 1 still fires its track-change notification (and
op 2 fires unconditionally), so notifs = [1, 2] instead of only the
later operation's [2]. -/
theorem c2_counterexample :
    (runSession initSession [Ev.issue 1 OpKind.single, Ev.issue 2 OpKind.snippet,
      Ev.ready 1, Ev.ready 2]).notifs = [1, 2] := by decide

/-- Claim C2 corrected: among the token-guarded play operations —
playSong, playRoomSong and playRoomQuickSnippet, i.e. those that both
increment the token at issue (tokenIncr) and check it before notifying
(tokenChecked) — an operation issued before a newer token-incrementing
operation and whose readiness continuation runs after it never fires its
track-change notification, while the later operation does (second
conjunct: the play-then-snippet scenario notifies only the snippet).
Pairs involving playQuickSnippet have no such guarantee. -/
theorem c2_stale_play_never_notifies :
    (∀ (pre post : List Ev) (i j : ℕ) (kj : OpKind),
      i ≠ j →
      (∀ k : OpKind, Ev.issue i k ∈ pre → tokenChecked k = true) →
      Ev.ready i ∉ pre →
      (∀ k : OpKind, Ev.issue i k ∉ post) →
      tokenIncr kj = true →
      i ∉ (runSession initSession (pre ++ Ev.issue j kj :: post)).notifs) ∧
    (runSession initSession [Ev.issue 1 OpKind.roomSingle,
      Ev.issue 2 OpKind.roomSnippet, Ev.ready 1, Ev.ready 2]).notifs = [2] := by
  constructor
  · intro pre post i j kj hne hpre hready hpost hIncr
    have hrun : runSession initSession (pre ++ Ev.issue j kj :: post) =
        runSession (sessionStep (runSession initSession pre)
          (Ev.issue j kj)) post := by
      simp [runSession, List.foldl_append]
    have hb : tokensBounded (runSession initSession pre) :=
      tokensBounded_runSession tokensBounded_init pre
    have hn : i ∉ (runSession initSession pre).notifs := by
      intro hmem
      rcases runSession_notif_ready pre initSession i hmem with hl | hr
      · simp [initSession] at hl
      · exact hready hr
    have hstale : StaleFor i (sessionStep (runSession initSession pre)
        (Ev.issue j kj)) := by
      constructor
      · simpa [sessionStep, issueStep] using hn
      · intro p hmem
        simp only [sessionStep, issueStep] at hmem ⊢
        rcases List.mem_append.mp hmem with hl | hr
        · have hk : tokenChecked p.kind = true := by
            rcases runSession_entry_issued pre initSession i p (Or.inl hl) with
              h0 | hiss
            · simp [initSession] at h0
            · exact hpre p.kind hiss
          have hle : p.myToken ≤ (runSession initSession pre).playToken :=
            hb.1 (i, p) hl
          have hcap : capturedToken kj (runSession initSession pre).playToken =
              (runSession initSession pre).playToken + 1 := by
            simp [capturedToken, hIncr]
          exact ⟨hk, by omega⟩
        · exfalso
          exact hne (congrArg Prod.fst (List.mem_singleton.mp hr))
    rw [hrun]
    exact (staleFor_runSession hstale hpost).1
  · decide

/-- Witness for C2's corrected statement: playRoomSong (op 1) issued,
playRoomQuickSnippet (op 2) issued before op 1's continuation runs; op 1
does not notify. -/
theorem c2_stale_play_never_notifies_witness :
    ((1 : ℕ) ≠ 2 ∧ tokenIncr OpKind.roomSnippet = true ∧
      Ev.ready 1 ∉ [Ev.issue 1 OpKind.roomSingle]) ∧
    1 ∉ (runSession initSession ([Ev.issue 1 OpKind.roomSingle] ++
      Ev.issue 2 OpKind.roomSnippet :: [Ev.ready 1, Ev.ready 2])).notifs := by
  refine ⟨⟨by decide, rfl, by decide⟩, ?_⟩
  refine c2_stale_play_never_notifies.1 [Ev.issue 1 OpKind.roomSingle]
    [Ev.ready 1, Ev.ready 2] 1 2 OpKind.roomSnippet (by decide) ?_ (by decide)
    ?_ rfl
  · intro k hk
    simp only [List.mem_singleton, Ev.issue.injEq, true_and] at hk
    subst hk
    rfl
  · intro k
    simp

/-- Operation i is a superseded room snippet: every continuation or
scheduled stop it still owns is of roomSnippet kind and carries a stale
token. -/
def StaleSnippetFor (i : ℕ) (s : Session) : Prop :=
  (∀ p : PendingOp, (i, p) ∈ s.pending →
    p.kind = OpKind.roomSnippet ∧ p.myToken < s.playToken) ∧
  (∀ p : PendingOp, (i, p) ∈ s.stopTimers →
    p.kind = OpKind.roomSnippet ∧ p.myToken < s.playToken)

lemma staleSnippetFor_sessionStep {i : ℕ} {s : Session}
    (h : StaleSnippetFor i s) {e : Ev} (he : ∀ k, e ≠ Ev.issue i k) :
    StaleSnippetFor i (sessionStep s e) := by
  obtain ⟨hp, ht⟩ := h
  cases e with
  | issue j k =>
    have hji : j ≠ i := fun hji => he k (by rw [hji])
    constructor
    · intro p hmem
      simp only [sessionStep, issueStep] at hmem ⊢
      rcases List.mem_append.mp hmem with hl | hr
      · obtain ⟨hc, hlt⟩ := hp p hl
        exact ⟨hc, lt_of_lt_of_le hlt (capturedToken_ge k s.playToken)⟩
      · exact absurd (congrArg Prod.fst (List.mem_singleton.mp hr)) hji.symm
    · intro p hmem
      simp only [sessionStep, issueStep] at hmem ⊢
      obtain ⟨hc, hlt⟩ := ht p hmem
      exact ⟨hc, lt_of_lt_of_le hlt (capturedToken_ge k s.playToken)⟩
  | ready id =>
    by_cases hid : id = i
    · subst hid
      have hstale : ∀ p : PendingOp, (id, p) ∈ s.pending →
          tokenChecked p.kind = true ∧ p.myToken < s.playToken := by
        intro p hmem
        obtain ⟨hc, hlt⟩ := hp p hmem
        exact ⟨by rw [hc]; rfl, hlt⟩
      obtain ⟨_, hstop⟩ := readyStep_stale id s hstale
      constructor
      · intro p hmem
        rw [sessionStep] at hmem
        rw [sessionStep, readyStep_playToken]
        exact hp p (readyStep_pending_sub id s hmem)
      · intro p hmem
        rw [sessionStep, hstop] at hmem
        rw [sessionStep, readyStep_playToken]
        exact ht p hmem
    · constructor
      · intro p hmem
        rw [sessionStep] at hmem
        rw [sessionStep, readyStep_playToken]
        exact hp p (readyStep_pending_sub id s hmem)
      · intro p hmem
        rw [sessionStep] at hmem
        rw [sessionStep, readyStep_playToken]
        rcases readyStep_stopTimers_sub id s hmem with hl | ⟨hkey, _⟩
        · exact ht p hl
        · exact absurd hkey.symm hid
  | stopFire id =>
    constructor
    · intro p hmem
      rw [sessionStep, stopFireStep_pending] at hmem
      rw [sessionStep, stopFireStep_playToken]
      exact hp p hmem
    · intro p hmem
      rw [sessionStep] at hmem
      rw [sessionStep, stopFireStep_playToken]
      exact ht p (stopFireStep_stopTimers_sub id s hmem)

lemma staleSnippetFor_runSession {i : ℕ} {s : Session}
    (h : StaleSnippetFor i s) {tr : List Ev}
    (htr : ∀ k, Ev.issue i k ∉ tr) : StaleSnippetFor i (runSession s tr) := by
  induction tr generalizing s with
  | nil => exact h
  | cons e tr ih =>
    refine ih (staleSnippetFor_sessionStep h ?_) ?_
    · intro k hk
      exact htr k (hk ▸ List.mem_cons_self _ _)
    · intro k hk
      exact htr k (List.mem_cons_of_mem _ hk)

lemma stopFireStep_stale_roomSnippet (i : ℕ) (s : Session)
    (h : ∀ p : PendingOp, (i, p) ∈ s.stopTimers →
      p.kind = OpKind.roomSnippet ∧ p.myToken < s.playToken) :
    (stopFireStep i s).currentAudio = s.currentAudio ∧
    (stopFireStep i s).playToken = s.playToken ∧
    (stopFireStep i s).notifs = s.notifs ∧
    (stopFireStep i s).pending = s.pending := by
  unfold stopFireStep
  split
  · exact ⟨rfl, rfl, rfl, rfl⟩
  · rename_i a q₀ hfind
    have hmem : (a, q₀) ∈ s.stopTimers := List.mem_of_find?_eq_some hfind
    have hkey : a = i := by simpa using List.find?_some hfind
    subst hkey
    obtain ⟨hk, hlt⟩ := h q₀ hmem
    dsimp only
    split
    case h_1 =>
      rename_i hsn
      rw [hk] at hsn
      exact absurd hsn (by decide)
    case h_2 => rw [if_neg (by omega)]; exact ⟨rfl, rfl, rfl, rfl⟩
    case h_3 => exact ⟨rfl, rfl, rfl, rfl⟩

/-- Claim C4 is false on the code for playQuickSnippet: its scheduled
stop calls stopSong() with no token check (songServices.ts lines
225-228).  In the trace below a playQuickSnippet (op 1) plays and
schedules its stop, then a newer playRoomSong (op 2) starts and owns the
audio (currentAudio = some 2); when the stale stop fires it still halts
playback (currentAudio = none), truncating the newer playback. -/
theorem c4_counterexample :
    (runSession initSession [Ev.issue 1 OpKind.snippet, Ev.ready 1,
      Ev.issue 2 OpKind.roomSingle]).currentAudio = some 2 ∧
    (stopFireStep 1 (runSession initSession [Ev.issue 1 OpKind.snippet,
      Ev.ready 1, Ev.issue 2 OpKind.roomSingle])).currentAudio = none :=
  ⟨by decide, by decide⟩

/-- Claim C4 corrected: the automatic stop is token-guarded for
playRoomQuickSnippet only — for an operation i issued (and possibly
readied) as a room snippet, once a newer token-incrementing play
operation j has been issued, i's scheduled stop firing leaves the
current playback, the play token, the notification log and the pending
operations untouched.  playQuickSnippet's stop is unconditional and has
no such guarantee. -/
theorem c4_room_snippet_stop_guarded :
    ∀ (pre mid : List Ev) (i j : ℕ) (kj : OpKind),
      i ≠ j →
      (∀ k : OpKind, Ev.issue i k ∈ pre → k = OpKind.roomSnippet) →
      (∀ k : OpKind, Ev.issue i k ∉ mid) →
      tokenIncr kj = true →
      (stopFireStep i (runSession initSession (pre ++ Ev.issue j kj :: mid))).currentAudio =
        (runSession initSession (pre ++ Ev.issue j kj :: mid)).currentAudio ∧
      (stopFireStep i (runSession initSession (pre ++ Ev.issue j kj :: mid))).notifs =
        (runSession initSession (pre ++ Ev.issue j kj :: mid)).notifs ∧
      (stopFireStep i (runSession initSession (pre ++ Ev.issue j kj :: mid))).pending =
        (runSession initSession (pre ++ Ev.issue j kj :: mid)).pending := by
  intro pre mid i j kj hne hpre hmid hIncr
  have hrun : runSession initSession (pre ++ Ev.issue j kj :: mid) =
      runSession (sessionStep (runSession initSession pre)
        (Ev.issue j kj)) mid := by
    simp [runSession, List.foldl_append]
  have hb : tokensBounded (runSession initSession pre) :=
    tokensBounded_runSession tokensBounded_init pre
  have hkind : ∀ p : PendingOp,
      ((i, p) ∈ (runSession initSession pre).pending ∨
        (i, p) ∈ (runSession initSession pre).stopTimers) →
      p.kind = OpKind.roomSnippet := by
    intro p hmem
    rcases runSession_entry_issued pre initSession i p hmem with h0 | hiss
    · rcases h0 with h0 | h0 <;> simp [initSession] at h0
    · exact hpre p.kind hiss
  have hcap : capturedToken kj (runSession initSession pre).playToken =
      (runSession initSession pre).playToken + 1 := by
    simp [capturedToken, hIncr]
  have hstale : StaleSnippetFor i (sessionStep (runSession initSession pre)
      (Ev.issue j kj)) := by
    constructor
    · intro p hmem
      simp only [sessionStep, issueStep] at hmem ⊢
      rcases List.mem_append.mp hmem with hl | hr
      · have hle : p.myToken ≤ (runSession initSession pre).playToken :=
          hb.1 (i, p) hl
        exact ⟨hkind p (Or.inl hl), by omega⟩
      · exact absurd (congrArg Prod.fst (List.mem_singleton.mp hr)) hne
    · intro p hmem
      simp only [sessionStep, issueStep] at hmem ⊢
      have hle : p.myToken ≤ (runSession initSession pre).playToken :=
        hb.2 (i, p) hmem
      exact ⟨hkind p (Or.inr hmem), by omega⟩
  have hfin : StaleSnippetFor i
      (runSession initSession (pre ++ Ev.issue j kj :: mid)) := by
    rw [hrun]
    exact staleSnippetFor_runSession hstale hmid
  obtain ⟨hc, _, hn, hp⟩ := stopFireStep_stale_roomSnippet i _ hfin.2
  exact ⟨hc, hn, hp⟩

/-- Witness for C4's corrected statement: a room snippet (op 1) plays and
schedules its stop, a newer playRoomSong (op 2) supersedes it; the stale
stop firing does not touch op 2's playback. -/
theorem c4_room_snippet_stop_guarded_witness :
    ((1 : ℕ) ≠ 2 ∧ tokenIncr OpKind.roomSingle = true) ∧
    (stopFireStep 1 (runSession initSession
      ([Ev.issue 1 OpKind.roomSnippet, Ev.ready 1] ++
        Ev.issue 2 OpKind.roomSingle :: []))).currentAudio =
      (runSession initSession ([Ev.issue 1 OpKind.roomSnippet, Ev.ready 1] ++
        Ev.issue 2 OpKind.roomSingle :: [])).currentAudio := by
  refine ⟨⟨by decide, rfl⟩, ?_⟩
  refine (c4_room_snippet_stop_guarded [Ev.issue 1 OpKind.roomSnippet, Ev.ready 1]
    [] 1 2 OpKind.roomSingle (by decide) ?_ (by intro k; simp) rfl).1
  intro k hk
  simp only [List.mem_cons, List.mem_singleton] at hk
  rcases hk with hk | hk
  · have := (Ev.issue.injEq 1 k 1 OpKind.roomSnippet).mp hk
    exact this.2
  · exact absurd hk (by simp)
